import Mathlib

/-!
Verification of the sealed-secrets-ui sealing core against its specification.

The Go source is embedded shallowly: Go `map[string]string` values become
association lists with key-unique update (`Smap`), Go byte strings become
`String`/`List Char`, fallible Go functions become `Except`, and the
Kubernetes/crypto collaborators become explicit inputs describing the result
of each external call.
-/

/-- Go `map[string]string`: an association list kept key-unique by `Smap.insert`. -/
abbrev Smap := List (String × String)

/-- Go map assignment `m[k] = v`: overwrite in place if the key exists, else add. -/
def Smap.insert (m : Smap) (k v : String) : Smap :=
  if m.any (fun p => p.1 = k) then
    m.map (fun p => if p.1 = k then (k, v) else p)
  else m ++ [(k, v)]

/-- Go map lookup `m[k]`. -/
def Smap.find : Smap → String → Option String
  | [], _ => none
  | p :: rest, k => if p.1 = k then some p.2 else Smap.find rest k

/-- The keys of the map are pairwise distinct (true of every real Go map). -/
def Smap.keysNodup (m : Smap) : Prop := (m.map Prod.fst).Nodup

instance (m : Smap) : Decidable m.keysNodup := by
  unfold Smap.keysNodup; infer_instance

/-- Struct `encryptRequest` from the source (the `pubKey *rsa.PublicKey` field is
carried by the abstract `hybridEncrypt` collaborator instead, since the key is
only ever passed through to it). -/
structure encryptRequest where
  secretName : String
  «namespace» : String
  scope : String
  values : Smap
deriving DecidableEq

/-- Function `getLabel` from the source: the OAEP label bound into each ciphertext. -/
def getLabel (req : encryptRequest) : String :=
  match req.scope with
  | "cluster" => ""
  | "namespace" => req.«namespace»
  | _ => req.«namespace» ++ "/" ++ req.secretName

/-- Function `getScopeAnnotations` from the source. -/
def getScopeAnnotations (scope : String) : Smap :=
  match scope with
  | "cluster" => [("sealedsecrets.bitnami.com/cluster-wide", "true")]
  | "namespace" => [("sealedsecrets.bitnami.com/namespace-wide", "true")]
  | _ => []

/-- Function `isScopeAnnotation` from the source (suffix `Key` added to the Lean name). -/
def isScopeAnnotationKey (annotationKey : String) : Bool :=
  match annotationKey with
  | "sealedsecrets.bitnami.com/cluster-wide" => true
  | "sealedsecrets.bitnami.com/namespace-wide" => true
  | _ => false

/-- A string that contains no '/' character. -/
def noSlash (s : String) : Prop := '/' ∉ s.data

instance (s : String) : Decidable (noSlash s) := by
  unfold noSlash; infer_instance

/-- The result of copying the entries of `source` into `dest` with a Go
`for key, value := range source` loop of map assignments. -/
def Smap.copyInto (source dest : Smap) : Smap :=
  source.foldl (fun m p => m.insert p.1 p.2) dest

/-- Result of a Kubernetes `Get` call, as seen by the service: the typed
client returns the zero value of the object together with a non-nil error on
failure, and `apierrors.IsNotFound` distinguishes the not-found error. -/
inductive K8sGetResult (α : Type) where
  | found (a : α)
  | notFound
  | err (e : String)
deriving DecidableEq

/-- Function `decodeSecret` from the source: converts the stored `map[string][]byte`
(byte strings modelled as `String`) to `map[string]string` entry by entry. -/
def decodeSecret (secretData : Smap) : Smap :=
  Smap.copyInto secretData []

/-- Function `getSecretData` from the source.  Mirrors the control flow exactly: the
`IsNotFound` branch returns an empty result and no error, and — since the
source has no `if err != nil` check after it — every other error falls
through to `decodeSecret(secret.Data)` on the zero-value secret (empty data)
and is returned as success. -/
def getSecretData (get : K8sGetResult Smap) : Except String Smap :=
  match get with
  | .notFound => .ok []
  | .found data => .ok (decodeSecret data)
  | .err _ => .ok (decodeSecret [])

/-- Function `copyStringMap` from the source. -/
def copyStringMap (source : Smap) : Smap :=
  Smap.copyInto source []

/-- The merge step of `CreateSealedSecret` (source lines 67–75): copy every
existing entry into a fresh map, then copy every newly submitted entry over
it, so fresh values win and storage-only keys are carried through. -/
def mergeValues (existingData newValues : Smap) : Smap :=
  Smap.copyInto newValues (Smap.copyInto existingData [])

/-- The loop body of `encryptValues`: encrypt each value under the request's
label, aborting on the first failure.  `hybridEncrypt` (defined in a source
file outside this snapshot) is abstracted as an arbitrary fallible function
of the plaintext value and the label; the public key is fixed inside it. -/
def encryptLoop (hybridEncrypt : String → String → Except String String)
    (label : String) : Smap → Smap → Except String Smap
  | [], encryptedData => .ok encryptedData
  | (key, value) :: rest, encryptedData =>
    match hybridEncrypt value label with
    | .error e => .error ("failed to encrypt value: " ++ e)
    | .ok enc => encryptLoop hybridEncrypt label rest (encryptedData.insert key enc)

/-- Function `encryptValues` from the source. -/
def encryptValues (hybridEncrypt : String → String → Except String String)
    (req : encryptRequest) : Except String Smap :=
  encryptLoop hybridEncrypt (getLabel req) req.values []

/-- The allow-list filter loop of `getSealedSecretAnnotations`: for every key
of the configured allow-list, keep the stored annotation under that key, if
any. -/
def preserveFold (annots : Smap) (keys : List String) : Smap :=
  keys.foldl
    (fun preserved key =>
      match annots.find key with
      | some value => preserved.insert key value
      | none => preserved) []

/-- Function `getSealedSecretAnnotations` from the source: short-circuits on an empty
allow-list, treats a missing SealedSecret or an empty annotation map as
"nothing preserved", propagates every other fetch error, and otherwise keeps
exactly the allow-listed annotations. -/
def getSealedSecretAnnotations (annotationsToPreserve : List String)
    (fetch : K8sGetResult Smap) : Except String Smap :=
  if annotationsToPreserve.length = 0 then .ok []
  else
    match fetch with
    | .notFound => .ok []
    | .err e => .error e
    | .found annots =>
      if annots.length = 0 then .ok []
      else .ok (preserveFold annots annotationsToPreserve)

/-- Struct `model.Metadata`. -/
structure Metadata where
  name : String
  «namespace» : String
  annotations : Smap
deriving DecidableEq

/-- Struct `model.Template`. -/
structure Template where
  metadata : Metadata
deriving DecidableEq

/-- Struct `model.SealedSecretSpec`. -/
structure SealedSecretSpec where
  encryptedData : Smap
  template : Template
deriving DecidableEq

/-- Struct `model.SealedSecret`. -/
structure SealedSecret where
  apiVersion : String
  kind : String
  metadata : Metadata
  spec : SealedSecretSpec
deriving DecidableEq

/-- Struct `model.CreateOpts`. -/
structure CreateOpts where
  scope : String
  «namespace» : String
  secretName : String
  values : Smap
deriving DecidableEq

/-- The external collaborators consumed by one `CreateSealedSecret` call:
the result of the Secrets `Get`, the public-key fetch (the key itself lives
inside `hybridEncrypt`), the per-value encryption primitive, the dynamic
SealedSecret `Get` used for preserved annotations, and the configured
annotation allow-list. -/
structure Collaborators where
  secretFetch : K8sGetResult Smap
  publicKeyFetch : Except String Unit
  hybridEncrypt : String → String → Except String String
  sealedSecretFetch : K8sGetResult Smap
  annotationsToPreserve : List String

/-- The annotation overlay loop of `CreateSealedSecret` (source lines
105-110): copy every preserved annotation over the scope annotations,
skipping the two reserved scope-control keys. -/
def scopeMergeFold (preserved dest : Smap) : Smap :=
  preserved.foldl
    (fun m p => if isScopeAnnotationKey p.1 then m else m.insert p.1 p.2) dest

/-- Function `CreateSealedSecret` from the source, step for step.  The final
`yaml.Marshal` of the assembled record is outside the claims' scope, so the
model returns the `SealedSecret` record itself. -/
def CreateSealedSecret (c : Collaborators) (opts : CreateOpts) :
    Except String SealedSecret :=
  match getSecretData c.secretFetch with
  | .error e => .error ("failed to get existing secret data: " ++ e)
  | .ok existingData =>
    let valuesToEncrypt := mergeValues existingData opts.values
    match c.publicKeyFetch with
    | .error e => .error ("failed to get public key: " ++ e)
    | .ok _ =>
      let req : encryptRequest :=
        { secretName := opts.secretName, «namespace» := opts.«namespace»,
          scope := opts.scope, values := valuesToEncrypt }
      match encryptValues c.hybridEncrypt req with
      | .error e => .error e
      | .ok encryptedData =>
        let scopeAnns := getScopeAnnotations req.scope
        let sealedSecretAnns := copyStringMap scopeAnns
        match getSealedSecretAnnotations c.annotationsToPreserve
            c.sealedSecretFetch with
        | .error e =>
          .error ("failed to get existing sealed-secret annotations: " ++ e)
        | .ok preserved =>
          let finalAnns := scopeMergeFold preserved sealedSecretAnns
          .ok { apiVersion := "bitnami.com/v1alpha1", kind := "SealedSecret",
                metadata := { name := req.secretName,
                              «namespace» := req.«namespace»,
                              annotations := finalAnns },
                spec := { encryptedData := encryptedData,
                          template := { metadata :=
                            { name := req.secretName,
                              «namespace» := req.«namespace»,
                              annotations := scopeAnns } } } }

def c2W : Collaborators :=
  { secretFetch := K8sGetResult.notFound,
    publicKeyFetch := .ok (),
    hybridEncrypt := fun v _ => .ok v,
    sealedSecretFetch := K8sGetResult.found
      [("owner", "team-x"), ("sealedsecrets.bitnami.com/namespace-wide", "true")],
    annotationsToPreserve := ["owner", "sealedsecrets.bitnami.com/namespace-wide"] }

def c2Opts : CreateOpts :=
  { scope := "strict", «namespace» := "ns", secretName := "db",
    values := [("a", "1")] }

def c2Record : SealedSecret :=
  { apiVersion := "bitnami.com/v1alpha1", kind := "SealedSecret",
    metadata := { name := "db", «namespace» := "ns",
                  annotations := [("owner", "team-x")] },
    spec := { encryptedData := [("a", "1")],
              template := { metadata :=
                { name := "db", «namespace» := "ns", annotations := [] } } } }

def c2Pres : Smap :=
  [("owner", "team-x"), ("sealedsecrets.bitnami.com/namespace-wide", "true")]

def c10W : Collaborators :=
  { secretFetch := K8sGetResult.notFound,
    publicKeyFetch := .ok (),
    hybridEncrypt := fun v _ => .ok v,
    sealedSecretFetch := K8sGetResult.found [("owner", "team-y")],
    annotationsToPreserve := ["owner"] }

def c10Opts : CreateOpts :=
  { scope := "namespace", «namespace» := "ns2", secretName := "db2",
    values := [("x", "y")] }

def c10Record : SealedSecret :=
  { apiVersion := "bitnami.com/v1alpha1", kind := "SealedSecret",
    metadata := { name := "db2", «namespace» := "ns2",
                  annotations :=
                    [("sealedsecrets.bitnami.com/namespace-wide", "true"),
                     ("owner", "team-y")] },
    spec := { encryptedData := [("x", "y")],
              template := { metadata :=
                { name := "db2", «namespace» := "ns2",
                  annotations :=
                    [("sealedsecrets.bitnami.com/namespace-wide", "true")] } } } }

/-- One line of the textarea input, as a list of characters. -/
abbrev Line := List Char

/-- The backtick character (written via its code point, U+0060). -/
def tickChar : Char := Char.ofNat 96

/-- Go `strings.HasSuffix(line, escapedBacktick)` where
`escapedBacktick = "\\" + backtick`. -/
def hasEscSuffix (l : Line) : Bool :=
  match l.reverse with
  | c :: d :: _ => c = tickChar && d = '\\'
  | _ => false

/-- Go `strings.CutSuffix(line, backtick)`. -/
def cutSuffixTick (l : Line) : Line × Bool :=
  match l.reverse with
  | c :: rest => if c = tickChar then (rest.reverse, true) else (l, false)
  | [] => (l, false)

/-- Go `strings.CutPrefix(value, backtick)`. -/
def cutPrefixTick (v : Line) : Line × Bool :=
  match v with
  | c :: rest => if c = tickChar then (rest, true) else (v, false)
  | [] => (v, false)

/-- Go `strings.ReplaceAll(line, escapedBacktick, backtick)`: replace each
(leftmost, non-overlapping) backslash+backtick pair by a literal backtick. -/
def replaceEscAll : Line → Line
  | [] => []
  | [c] => [c]
  | c :: d :: rest =>
    if c = '\\' && d = tickChar then tickChar :: replaceEscAll rest
    else c :: replaceEscAll (d :: rest)

/-- The repeated three-line snippet of `parseKeyValuePairs` that processes a
line of an open block (and the remainder of an opening line): cut an
unescaped trailing backtick, then render escaped backticks literally.  The
Bool is Go's `isEndOfBlock`. -/
def processBlockLine (line : Line) : Line × Bool :=
  if hasEscSuffix line then (replaceEscAll line, false)
  else
    let pr := cutSuffixTick line
    (replaceEscAll pr.1, pr.2)

/-- Go `strings.SplitN(line, "=", 2)`: `none` when the line has no '='
(`len(parts) != 2`), otherwise the text before the first '=' and everything
after it. -/
def splitEq : Line → Option (Line × Line)
  | [] => none
  | c :: rest =>
    if c = '=' then some ([], rest)
    else
      match splitEq rest with
      | some kv => some (c :: kv.1, kv.2)
      | none => none

/-- Go `strings.Split(data, "\n")`. -/
def splitLines : Line → List Line
  | [] => [[]]
  | c :: rest =>
    if c = '\n' then [] :: splitLines rest
    else
      match splitLines rest with
      | l :: ls => (c :: l) :: ls
      | [] => [[c]]

/-- The three failure modes of `parseKeyValuePairs`: `errors.New("empty")`,
`fmt.Errorf("Missing '=' at line: %v", i)` and
`fmt.Errorf("Backticked block is not closed")`. -/
inductive ParseErr where
  | empty
  | missingEq (i : Nat)
  | unterminated
deriving DecidableEq

/-- The loop of `parseKeyValuePairs`, with the loop state made explicit:
line index `i`, `multilineKey` `mk`, `multilineValue` builder `mv`, and the
result map.  Note the source's two quirks, both kept: the in-block test is
`len(multilineKey) > 0`, so a block opened by a line with an empty key does
not register as open; and `multilineValue` is only reset when a block
closes, so a stale builder prefix is carried into the next block opening. -/
def parseLoop : List Line → Nat → Line → Line → Smap → Except ParseErr Smap
  | [], _, mk, _, result =>
    if mk.length ≠ 0 then .error .unterminated else .ok result
  | line :: rest, i, mk, mv, result =>
    if 0 < mk.length then
      let pr := processBlockLine line
      let mv2 := mv ++ '\n' :: pr.1
      if pr.2 then
        parseLoop rest (i + 1) [] []
          (result.insert (String.mk mk) (String.mk mv2))
      else parseLoop rest (i + 1) mk mv2 result
    else
      match splitEq line with
      | none => .error (.missingEq i)
      | some (k, v) =>
        let cp := cutPrefixTick v
        if cp.2 then
          let pr := processBlockLine cp.1
          let mv2 := mv ++ pr.1
          if pr.2 then
            parseLoop rest (i + 1) [] []
              (result.insert (String.mk k) (String.mk mv2))
          else parseLoop rest (i + 1) k mv2 result
        else
          parseLoop rest (i + 1) [] mv
            (result.insert (String.mk k) (String.mk v))

/-- Function `parseKeyValuePairs` from the source. -/
def parseKeyValuePairs (data : String) : Except ParseErr Smap :=
  let lines := splitLines data.data
  if lines.length = 1 ∧ (lines.headD []).length = 0 then .error .empty
  else parseLoop lines 0 [] [] []

/-- Spec-side notion (§4.1): a line ends with an unescaped closing backtick
(a trailing backtick not preceded by a backslash). -/
def endsUnescapedTick (l : Line) : Bool :=
  match l.reverse with
  | [] => false
  | [c] => c = tickChar
  | c :: d :: _ => c = tickChar && !(d = '\\')

/-- Modelled from the spec (§4.1): the failure behaviour of the parser as a
line automaton that tracks only whether a multi-line block is open.  With
`keyRequired = false` this is the claim's reading (any value starting with a
backtick opens a block); with `keyRequired = true` a block opened by a line
with an empty key does not count as open, which is how the code behaves. -/
def refSteps (keyRequired : Bool) : List Line → Nat → Bool → Option ParseErr
  | [], _, inside => if inside then some .unterminated else none
  | line :: rest, i, inside =>
    if inside then refSteps keyRequired rest (i + 1) (!endsUnescapedTick line)
    else
      match splitEq line with
      | none => some (.missingEq i)
      | some (k, v) =>
        let cp := cutPrefixTick v
        if cp.2 then
          refSteps keyRequired rest (i + 1)
            ((!keyRequired || decide (0 < k.length)) && !endsUnescapedTick cp.1)
        else refSteps keyRequired rest (i + 1) false

/-- The error of a parse outcome, if any. -/
def errOf : Except ParseErr Smap → Option ParseErr
  | .error e => some e
  | .ok _ => none

/-- The failure cases of the claim, amended: empty input; a line that is not
inside an open multi-line block (where a block opened under an empty key does
not count as open) and has no '='; end of input with a block still open. -/
def specFails (data : String) : Option ParseErr :=
  let lines := splitLines data.data
  if lines.length = 1 ∧ (lines.headD []).length = 0 then some .empty
  else refSteps true lines 0 false

/-- The failure cases exactly as the claim states them: empty input; a line
not inside an open multi-line block with no '='; unterminated block. -/
def specFailsClaim (data : String) : Option ParseErr :=
  let lines := splitLines data.data
  if lines.length = 1 ∧ (lines.headD []).length = 0 then some .empty
  else refSteps false lines 0 false

/-- Join lines with newlines (left inverse of `splitLines` for
newline-free lines). -/
def joinNL : List Line → Line
  | [] => []
  | [l] => l
  | l :: ls => l ++ '\n' :: joinNL ls

/-- The value contributed by the continuation lines of a multi-line block:
each middle line preceded by a newline and unescaped, then the closing line
with its terminating backtick cut and its escapes rendered. -/
def blockTail : List Line → Line → Line
  | [], vlast => '\n' :: replaceEscAll (cutSuffixTick vlast).1
  | m :: ms, vlast => '\n' :: (replaceEscAll m ++ blockTail ms vlast)

lemma getLabel_cluster (r : encryptRequest) (h : r.scope = "cluster") :
    getLabel r = "" := by
  unfold getLabel; rw [h]; rfl

lemma getLabel_namespace (r : encryptRequest) (h : r.scope = "namespace") :
    getLabel r = r.«namespace» := by
  unfold getLabel; rw [h]; rfl

lemma getLabel_default (r : encryptRequest) (h1 : r.scope ≠ "cluster")
    (h2 : r.scope ≠ "namespace") :
    getLabel r = r.«namespace» ++ "/" ++ r.secretName := by
  unfold getLabel
  split
  · rename_i heq; exact absurd heq h1
  · rename_i heq; exact absurd heq h2
  · rfl

lemma getScopeAnnotations_default (s : String) (h1 : s ≠ "cluster")
    (h2 : s ≠ "namespace") : getScopeAnnotations s = [] := by
  unfold getScopeAnnotations
  split
  · exact absurd rfl h1
  · exact absurd rfl h2
  · rfl

/-- C7 — scope resolution mapping of `getLabel` and `getScopeAnnotations`:
cluster scope gives the empty label and the cluster-wide marker, namespace
scope gives the namespace as label and the namespace-wide marker, and every
other scope string (including "strict") gives `namespace ++ "/" ++ secretName`
and the empty annotation set. -/
theorem scope_resolution_mapping (r : encryptRequest) :
    (r.scope = "cluster" → getLabel r = "" ∧
      getScopeAnnotations r.scope =
        [("sealedsecrets.bitnami.com/cluster-wide", "true")]) ∧
    (r.scope = "namespace" → getLabel r = r.«namespace» ∧
      getScopeAnnotations r.scope =
        [("sealedsecrets.bitnami.com/namespace-wide", "true")]) ∧
    (r.scope ≠ "cluster" → r.scope ≠ "namespace" →
      getLabel r = r.«namespace» ++ "/" ++ r.secretName ∧
      getScopeAnnotations r.scope = []) := by
  refine ⟨fun h => ⟨getLabel_cluster r h, ?_⟩,
          fun h => ⟨getLabel_namespace r h, ?_⟩,
          fun h1 h2 => ⟨getLabel_default r h1 h2,
                        getScopeAnnotations_default _ h1 h2⟩⟩
  · rw [h]; rfl
  · rw [h]; rfl

/-- Witness for C7 at a concrete unrecognized scope string. -/
theorem scope_resolution_mapping_witness :
    getLabel ⟨"db", "prod", "strict", []⟩ = "prod/db" ∧
    getScopeAnnotations "strict" = [] :=
  (scope_resolution_mapping ⟨"db", "prod", "strict", []⟩).2.2
    (by decide) (by decide)

/-- C1, counterexample — `getLabel` does not separate every pair of
Namespace/Strict requests that differ in namespace or secret name:
(a) two namespace-scoped requests with the same namespace but different
secret names get the same label; (b) two strict-scoped requests with
different namespaces can collide through the '/' separator. -/
theorem label_distinct_cex :
    (getLabel ⟨"a", "ns", "namespace", []⟩ = getLabel ⟨"b", "ns", "namespace", []⟩ ∧
      ("a" : String) ≠ "b") ∧
    (getLabel ⟨"c", "a/b", "strict", []⟩ = getLabel ⟨"b/c", "a", "strict", []⟩ ∧
      ("a/b" : String) ≠ "a") := by
  refine ⟨⟨?_, by decide⟩, ⟨?_, by decide⟩⟩ <;> decide

lemma append_slash_inj (a1 : List Char) :
    ∀ a2 b1 b2 : List Char, '/' ∉ a1 → '/' ∉ a2 →
    a1 ++ '/' :: b1 = a2 ++ '/' :: b2 → a1 = a2 ∧ b1 = b2 := by
  induction a1 with
  | nil =>
    intro a2 b1 b2 _ h2 h
    cases a2 with
    | nil => simpa using h
    | cons c a2' =>
      simp only [List.nil_append, List.cons_append, List.cons.injEq] at h
      exact absurd (h.1 ▸ List.mem_cons_self c a2') h2
  | cons c a1' ih =>
    intro a2 b1 b2 h1 h2 h
    cases a2 with
    | nil =>
      simp only [List.cons_append, List.nil_append, List.cons.injEq] at h
      exact absurd (h.1 ▸ List.mem_cons_self c a1') h1
    | cons d a2' =>
      simp only [List.cons_append, List.cons.injEq] at h
      obtain ⟨rfl, h⟩ := h
      have := ih a2' b1 b2 (fun hm => h1 (List.mem_cons_of_mem _ hm))
        (fun hm => h2 (List.mem_cons_of_mem _ hm)) h
      exact ⟨by rw [this.1], this.2⟩

lemma strict_label_inj (ns1 n1 ns2 n2 : String) (h1 : noSlash ns1)
    (h2 : noSlash ns2) (h : ns1 ++ "/" ++ n1 = ns2 ++ "/" ++ n2) :
    ns1 = ns2 ∧ n1 = n2 := by
  have hd : ns1.data ++ '/' :: n1.data = ns2.data ++ '/' :: n2.data := by
    have := congrArg String.data h
    simpa [List.append_assoc] using this
  have := append_slash_inj ns1.data ns2.data n1.data n2.data h1 h2 hd
  exact ⟨String.ext this.1, String.ext this.2⟩

lemma slash_mem_strict_label (ns n : String) :
    '/' ∈ (ns ++ "/" ++ n).data := by
  show '/' ∈ (ns.data ++ ['/']) ++ n.data
  simp

/-- C1 as amended — for two requests whose scope is not "cluster" (namespace
scope or the strict default) and whose namespaces contain no '/', the labels
differ whenever the namespaces differ, or whenever both requests are
strict-scoped and the secret names differ.  (Namespace-scoped labels ignore
the secret name, and '/' inside a namespace can make strict labels collide,
so the original unconditional claim fails.) -/
theorem label_distinct_amended (r1 r2 : encryptRequest)
    (hc1 : r1.scope ≠ "cluster") (hc2 : r2.scope ≠ "cluster")
    (hs1 : noSlash r1.«namespace») (hs2 : noSlash r2.«namespace»)
    (hdiff : r1.«namespace» ≠ r2.«namespace» ∨
      (r1.scope ≠ "namespace" ∧ r2.scope ≠ "namespace" ∧
        r1.secretName ≠ r2.secretName)) :
    getLabel r1 ≠ getLabel r2 := by
  intro hEq
  by_cases hn1 : r1.scope = "namespace" <;> by_cases hn2 : r2.scope = "namespace"
  · rw [getLabel_namespace r1 hn1, getLabel_namespace r2 hn2] at hEq
    rcases hdiff with h | ⟨h, _, _⟩
    · exact h hEq
    · exact h hn1
  · rw [getLabel_namespace r1 hn1, getLabel_default r2 hc2 hn2] at hEq
    exact hs1 (hEq ▸ slash_mem_strict_label r2.«namespace» r2.secretName)
  · rw [getLabel_default r1 hc1 hn1, getLabel_namespace r2 hn2] at hEq
    exact hs2 (hEq ▸ slash_mem_strict_label r1.«namespace» r1.secretName)
  · rw [getLabel_default r1 hc1 hn1, getLabel_default r2 hc2 hn2] at hEq
    have := strict_label_inj _ _ _ _ hs1 hs2 hEq
    rcases hdiff with h | ⟨_, _, h⟩
    · exact h this.1
    · exact h this.2

/-- Witness for the amended C1 at concrete strict-scoped requests. -/
theorem label_distinct_amended_witness :
    getLabel ⟨"db", "prod", "strict", []⟩ ≠ getLabel ⟨"db", "dev", "strict", []⟩ :=
  label_distinct_amended _ _ (by decide) (by decide) (by decide) (by decide)
    (Or.inl (by decide))

lemma Smap.find_map_upd_self (m : Smap) (k v : String)
    (h : m.any (fun p => p.1 = k) = true) :
    Smap.find (m.map (fun p => if p.1 = k then (k, v) else p)) k = some v := by
  induction m with
  | nil => simp at h
  | cons p rest ih =>
    by_cases hp : p.1 = k
    · simp [Smap.find, hp]
    · simp only [List.any_cons, Bool.or_eq_true, decide_eq_true_eq] at h
      rcases h with h | h
    
      · exact absurd h hp
      · simp [Smap.find, hp, ih h]

lemma Smap.find_map_upd_ne (m : Smap) (k v k' : String) (h : ¬(k = k')) :
    Smap.find (m.map (fun p => if p.1 = k then (k, v) else p)) k' =
      Smap.find m k' := by
  induction m with
  | nil => rfl
  | cons p rest ih =>
    by_cases hp : p.1 = k
    · have hpk : ¬(p.1 = k') := fun hq => h (hp ▸ hq)
      simp [Smap.find, hp, h, hpk, ih]
    · have hk' : ¬(k' = k) := fun hh => h hh.symm
      by_cases hq : p.1 = k' <;> simp [Smap.find, hp, hq, hk', ih]

lemma Smap.find_eq_none_of_not_any (m : Smap) (k : String)
    (h : m.any (fun p => p.1 = k) = false) : Smap.find m k = none := by
  induction m with
  | nil => rfl
  | cons p rest ih =>
    simp only [List.any_cons, Bool.or_eq_false_iff, decide_eq_false_iff_not] at h
    simp only [Smap.find, if_neg h.1]
    exact ih (by simp [h.2])

lemma Smap.find_append (m1 m2 : Smap) (k : String) :
    Smap.find (m1 ++ m2) k =
      (match Smap.find m1 k with
       | some v => some v
       | none => Smap.find m2 k) := by
  induction m1 with
  | nil => simp [Smap.find]
  | cons p rest ih =>
    by_cases hp : p.1 = k <;> simp [Smap.find, hp, ih]

lemma Smap.find_insert (m : Smap) (k v k' : String) :
    Smap.find (m.insert k v) k' = if k = k' then some v else Smap.find m k' := by
  unfold Smap.insert
  by_cases hc : m.any (fun p => p.1 = k) <;> simp only [hc, if_pos, if_neg,
    Bool.false_eq_true, not_false_eq_true]
  · by_cases hk : k = k'
    · subst hk; rw [if_pos rfl]; exact Smap.find_map_upd_self m k v hc
    · rw [if_neg hk]; exact Smap.find_map_upd_ne m k v k' hk
  · rw [Smap.find_append]
    by_cases hk : k = k'
    · subst hk
      rw [Smap.find_eq_none_of_not_any m k (by rw [Bool.not_eq_true] at hc; exact hc)]
      simp [Smap.find]
    · have h1 : Smap.find [(k, v)] k' = none := by simp [Smap.find, hk]
      rw [if_neg hk, h1]
      cases hfm : Smap.find m k' <;> simp

lemma Smap.keys_map_upd (m : Smap) (k v : String) :
    (m.map (fun p => if p.1 = k then (k, v) else p)).map Prod.fst =
      m.map Prod.fst := by
  induction m with
  | nil => rfl
  | cons p rest ih => by_cases hp : p.1 = k <;> simp [hp, ih]

lemma Smap.keysNodup_insert (m : Smap) (k v : String) (h : m.keysNodup) :
    Smap.keysNodup (m.insert k v) := by
  unfold Smap.keysNodup at h ⊢
  unfold Smap.insert
  by_cases hc : m.any (fun p => p.1 = k) <;>
    simp only [hc, Bool.false_eq_true, if_pos, if_neg, not_false_eq_true]
  · rw [Smap.keys_map_upd]; exact h
  · simp only [List.any_eq_true, decide_eq_true_eq, not_exists, not_and] at hc
    rw [List.map_append]
    refine List.Nodup.append h (List.nodup_singleton k) ?_
    intro x hx hxk
    rcases List.mem_map.mp hx with ⟨p, hp, rfl⟩
    rcases List.mem_singleton.mp hxk with rfl
    exact hc p hp rfl

lemma Smap.find_eq_none_of_not_mem_keys (m : Smap) (k : String)
    (h : k ∉ m.map Prod.fst) : Smap.find m k = none := by
  apply Smap.find_eq_none_of_not_any
  rw [List.any_eq_false]
  intro p hp
  exact fun hpk => h (List.mem_map.mpr ⟨p, hp, of_decide_eq_true hpk⟩)

lemma Smap.copyInto_concat (source dest : Smap) (p : String × String) :
    Smap.copyInto (source ++ [p]) dest =
      (Smap.copyInto source dest).insert p.1 p.2 := by
  unfold Smap.copyInto
  rw [List.foldl_append]
  rfl

lemma Smap.keysNodup_copyInto (source : Smap) :
    ∀ dest : Smap, Smap.keysNodup dest →
      Smap.keysNodup (Smap.copyInto source dest) := by
  induction source using List.reverseRecOn with
  | nil => intro dest h; exact h
  | append_singleton source p ih =>
    intro dest h
    rw [Smap.copyInto_concat]
    exact Smap.keysNodup_insert _ _ _ (ih dest h)

lemma Smap.keysNodup_dropLast (source : Smap) (p : String × String)
    (hs : Smap.keysNodup (source ++ [p])) :
    Smap.keysNodup source ∧ p.1 ∉ source.map Prod.fst := by
  unfold Smap.keysNodup at hs
  rw [List.map_append] at hs
  have h := List.Nodup.of_append_left hs
  have hd := List.disjoint_of_nodup_append hs
  refine ⟨h, fun hm => ?_⟩
  exact hd hm (by simp)

lemma Smap.find_copyInto (source : Smap) (hs : Smap.keysNodup source) :
    ∀ (dest : Smap) (k : String),
      Smap.find (Smap.copyInto source dest) k =
        (match Smap.find source k with
         | some v => some v
         | none => Smap.find dest k) := by
  induction source using List.reverseRecOn with
  | nil => intro dest k; simp [Smap.copyInto, Smap.find]
  | append_singleton source p ih =>
    intro dest k
    obtain ⟨hs', hpk⟩ := Smap.keysNodup_dropLast source p hs
    rw [Smap.copyInto_concat, Smap.find_insert, Smap.find_append]
    by_cases hk : p.1 = k
    · subst hk
      rw [if_pos rfl, Smap.find_eq_none_of_not_mem_keys source p.1 hpk]
      simp [Smap.find]
    · have h1 : Smap.find [p] k = none := by simp [Smap.find, hk]
      rw [if_neg hk, ih hs' dest k, h1]
      cases hfm : Smap.find source k <;> simp

/-- C3 — contrary to the claim, a non-not-found failure of the Secrets read
does NOT propagate: `getSecretData` has no error check after the `IsNotFound`
branch, so a transient error is swallowed and treated exactly like an absent
secret (empty mapping, no error), and `CreateSealedSecret` then succeeds as
if the secret did not exist.  The not-found half of the claim does hold. -/
theorem secret_read_error_swallowed :
    getSecretData (K8sGetResult.err "connection timeout") = .ok [] ∧
    getSecretData K8sGetResult.notFound = .ok [] ∧
    (CreateSealedSecret
      { secretFetch := K8sGetResult.err "connection timeout",
        publicKeyFetch := .ok (),
        hybridEncrypt := fun v _ => .ok v,
        sealedSecretFetch := K8sGetResult.notFound,
        annotationsToPreserve := [] }
      { scope := "strict", «namespace» := "ns", secretName := "db",
        values := [("k", "v")] }).isOk = true :=
  ⟨rfl, rfl, rfl⟩

lemma mergeValues_find (ex new : Smap) (hex : Smap.keysNodup ex)
    (hnew : Smap.keysNodup new) (k : String) :
    Smap.find (mergeValues ex new) k =
      (match Smap.find new k with
       | some v => some v
       | none => Smap.find ex k) := by
  unfold mergeValues
  rw [Smap.find_copyInto new hnew, Smap.find_copyInto ex hex]
  cases Smap.find new k <;> cases hfx : Smap.find ex k <;> simp [Smap.find]

/-- C8 — plaintext merge: the values handed to encryption are the union of
the stored mapping and the freshly submitted one, with the fresh value
winning on keys present in both and storage-only keys carried through
unchanged. -/
theorem merge_fresh_wins (ex new : Smap) (hex : Smap.keysNodup ex)
    (hnew : Smap.keysNodup new) :
    (∀ k v, Smap.find new k = some v →
      Smap.find (mergeValues ex new) k = some v) ∧
    (∀ k, Smap.find new k = none →
      Smap.find (mergeValues ex new) k = Smap.find ex k) := by
  constructor
  · intro k v h
    rw [mergeValues_find ex new hex hnew k, h]
  · intro k h
    rw [mergeValues_find ex new hex hnew k, h]

/-- Witness for C8 on the spec's own example:
{a:1, b:2} merged with {b:3, c:4} gives {a:1, b:3, c:4}. -/
theorem merge_fresh_wins_witness :
    Smap.find (mergeValues [("a", "1"), ("b", "2")] [("b", "3"), ("c", "4")]) "a"
      = some "1" ∧
    Smap.find (mergeValues [("a", "1"), ("b", "2")] [("b", "3"), ("c", "4")]) "b"
      = some "3" ∧
    Smap.find (mergeValues [("a", "1"), ("b", "2")] [("b", "3"), ("c", "4")]) "c"
      = some "4" := by
  have h := merge_fresh_wins [("a", "1"), ("b", "2")] [("b", "3"), ("c", "4")]
    (by decide) (by decide)
  exact ⟨(h.2 "a" (by decide)).trans (by decide),
         h.1 "b" "3" (by decide),
         h.1 "c" "4" (by decide)⟩

lemma encryptLoop_mem_error (hybridEncrypt : String → String → Except String String)
    (label : String) :
    ∀ (l acc : Smap) (k v e : String), (k, v) ∈ l →
      hybridEncrypt v label = .error e →
      ∃ msg, encryptLoop hybridEncrypt label l acc = .error msg := by
  intro l
  induction l with
  | nil => intro acc k v e hmem; exact absurd hmem (List.not_mem_nil (k, v))
  | cons p rest ih =>
    intro acc k v e hmem hfail
    obtain ⟨k', v'⟩ := p
    unfold encryptLoop
    cases henc : hybridEncrypt v' label with
    | error e' => exact ⟨"failed to encrypt value: " ++ e', rfl⟩
    | ok enc =>
      rcases List.mem_cons.mp hmem with heq | hmem'
      · obtain ⟨rfl, rfl⟩ := Prod.mk.injEq .. ▸ heq
        rw [henc] at hfail
        exact absurd hfail (by simp)
      · exact ih (acc.insert k' enc) k v e hmem' hfail

/-- C4 — atomic failure of sealing: if any single merged value fails to
encrypt, `CreateSealedSecret` returns an error, and no record (and hence no
partial encryptedData mapping) is observable by the caller. -/
theorem seal_atomic_failure (c : Collaborators) (opts : CreateOpts)
    (existingData : Smap) (k v e : String)
    (hsec : getSecretData c.secretFetch = .ok existingData)
    (hkey : c.publicKeyFetch = .ok ())
    (hmem : (k, v) ∈ mergeValues existingData opts.values)
    (hfail : c.hybridEncrypt v
      (getLabel { secretName := opts.secretName, «namespace» := opts.«namespace»,
                  scope := opts.scope,
                  values := mergeValues existingData opts.values }) = .error e) :
    ∃ msg, CreateSealedSecret c opts = .error msg := by
  obtain ⟨msg, hmsg⟩ := encryptLoop_mem_error c.hybridEncrypt
    (getLabel { secretName := opts.secretName, «namespace» := opts.«namespace»,
                scope := opts.scope,
                values := mergeValues existingData opts.values })
    (mergeValues existingData opts.values) [] k v e hmem hfail
  refine ⟨msg, ?_⟩
  unfold CreateSealedSecret
  rw [hsec, hkey]
  simp only
  unfold encryptValues
  rw [hmsg]

/-- Witness for C4: one failing value among two aborts the whole call. -/
theorem seal_atomic_failure_witness :
    ∃ msg, CreateSealedSecret
      { secretFetch := K8sGetResult.notFound,
        publicKeyFetch := .ok (),
        hybridEncrypt := fun v _ =>
          if v = "boom" then .error "bad key" else .ok v,
        sealedSecretFetch := K8sGetResult.notFound,
        annotationsToPreserve := [] }
      { scope := "strict", «namespace» := "ns", secretName := "db",
        values := [("a", "fine"), ("b", "boom")] } = .error msg :=
  seal_atomic_failure _ _ [] "b" "boom" "bad key" rfl rfl (by decide) rfl

lemma CreateSealedSecret_ok_elim (c : Collaborators) (opts : CreateOpts)
    (ss : SealedSecret) (h : CreateSealedSecret c opts = .ok ss) :
    ∃ preserved,
      getSealedSecretAnnotations c.annotationsToPreserve c.sealedSecretFetch
        = .ok preserved ∧
      ss.metadata.annotations =
        scopeMergeFold preserved (copyStringMap (getScopeAnnotations opts.scope)) ∧
      ss.spec.template.metadata.annotations = getScopeAnnotations opts.scope := by
  simp only [CreateSealedSecret] at h
  split at h
  · exact absurd h (by simp)
  · split at h
    · exact absurd h (by simp)
    · split at h
      · exact absurd h (by simp)
      · split at h
        · exact absurd h (by simp)
        · rename_i preserved hpres
          injection h with h
          subst h
          exact ⟨preserved, hpres, rfl, rfl⟩

lemma scopeMergeFold_concat (preserved dest : Smap) (p : String × String) :
    scopeMergeFold (preserved ++ [p]) dest =
      (if isScopeAnnotationKey p.1 then scopeMergeFold preserved dest
       else (scopeMergeFold preserved dest).insert p.1 p.2) := by
  unfold scopeMergeFold
  rw [List.foldl_append]
  rfl

lemma scopeMergeFold_find_scope_key (preserved : Smap) (k : String)
    (hk : isScopeAnnotationKey k = true) :
    ∀ dest : Smap, Smap.find (scopeMergeFold preserved dest) k =
      Smap.find dest k := by
  induction preserved using List.reverseRecOn with
  | nil => intro dest; rfl
  | append_singleton preserved p ih =>
    intro dest
    rw [scopeMergeFold_concat]
    by_cases hp : isScopeAnnotationKey p.1
    · rw [if_pos hp, ih]
    · have hpk : ¬(p.1 = k) := fun h => hp (h ▸ hk)
      rw [if_neg hp, Smap.find_insert, if_neg hpk, ih]

lemma scopeMergeFold_find_preserved (preserved : Smap) (k v : String)
    (hk : isScopeAnnotationKey k = false)
    (hnd : Smap.keysNodup preserved)
    (hfind : Smap.find preserved k = some v) :
    ∀ dest : Smap, Smap.find (scopeMergeFold preserved dest) k = some v := by
  induction preserved using List.reverseRecOn with
  | nil => intro dest; simp [Smap.find] at hfind
  | append_singleton preserved p ih =>
    intro dest
    obtain ⟨hnd', hpk⟩ := Smap.keysNodup_dropLast preserved p hnd
    rw [scopeMergeFold_concat]
    by_cases hp : p.1 = k
    · have hfp : Smap.find preserved k = none := by
        apply Smap.find_eq_none_of_not_mem_keys
        rw [← hp]; exact hpk
      rw [Smap.find_append, hfp] at hfind
      simp only [Smap.find, hp, if_pos] at hfind
      rw [if_neg (by rw [hp, hk]; exact Bool.false_ne_true),
        Smap.find_insert, if_pos hp]
      exact hfind
    · have hfind' : Smap.find preserved k = some v := by
        rw [Smap.find_append] at hfind
        cases hfp : Smap.find preserved k with
        | some w => rw [hfp] at hfind; exact hfind
        | none =>
          rw [hfp] at hfind
          simp only [Smap.find, hp, if_neg] at hfind
          exact absurd hfind (by simp [Smap.find])
      by_cases hps : isScopeAnnotationKey p.1
      · rw [if_pos hps]; exact ih hnd' hfind' dest
      · rw [if_neg hps, Smap.find_insert, if_neg hp]
        exact ih hnd' hfind' dest

lemma getScopeAnnotations_keysNodup (s : String) :
    Smap.keysNodup (getScopeAnnotations s) := by
  unfold getScopeAnnotations
  split <;> decide

lemma copyStringMap_find (s : Smap) (hs : Smap.keysNodup s) (k : String) :
    Smap.find (copyStringMap s) k = Smap.find s k := by
  unfold copyStringMap
  rw [Smap.find_copyInto s hs]
  cases Smap.find s k <;> simp [Smap.find]

lemma preserveFold_keysNodup (annots : Smap) (keys : List String) :
    Smap.keysNodup (preserveFold annots keys) := by
  unfold preserveFold
  suffices h : ∀ acc : Smap, Smap.keysNodup acc →
      Smap.keysNodup (keys.foldl
        (fun preserved key =>
          match annots.find key with
          | some value => preserved.insert key value
          | none => preserved) acc) by
    exact h [] (by decide)
  induction keys with
  | nil => intro acc hacc; exact hacc
  | cons key rest ih =>
    intro acc hacc
    simp only [List.foldl_cons]
    cases annots.find key with
    | some value => exact ih _ (Smap.keysNodup_insert acc key value hacc)
    | none => exact ih _ hacc

lemma getSealedSecretAnnotations_keysNodup (allow : List String)
    (fetch : K8sGetResult Smap) (preserved : Smap)
    (h : getSealedSecretAnnotations allow fetch = .ok preserved) :
    Smap.keysNodup preserved := by
  unfold getSealedSecretAnnotations at h
  split at h
  · injection h with h; subst h; exact List.nodup_nil
  · split at h
    · injection h with h; subst h; exact List.nodup_nil
    · exact absurd h (by simp)
    · split at h
      · injection h with h; subst h; exact List.nodup_nil
      · injection h with h; subst h
        exact preserveFold_keysNodup _ _

/-- C2 — scope-control annotations in the returned record's metadata are
exactly the ones recomputed from the request's scope (never taken from the
preserved set, even when the allow-list admits those keys), while every other
preserved (allow-listed) annotation is overlaid verbatim. -/
theorem scope_annotations_recomputed (c : Collaborators) (opts : CreateOpts)
    (ss : SealedSecret) (pres : Smap)
    (hss : CreateSealedSecret c opts = .ok ss)
    (hp : getSealedSecretAnnotations c.annotationsToPreserve c.sealedSecretFetch
      = .ok pres) :
    (∀ k, isScopeAnnotationKey k = true →
      Smap.find ss.metadata.annotations k =
        Smap.find (getScopeAnnotations opts.scope) k) ∧
    (∀ k v, isScopeAnnotationKey k = false → Smap.find pres k = some v →
      Smap.find ss.metadata.annotations k = some v) := by
  obtain ⟨preserved, hpres, hmeta, -⟩ := CreateSealedSecret_ok_elim c opts ss hss
  rw [hp] at hpres
  injection hpres with hpres
  subst hpres
  constructor
  · intro k hk
    rw [hmeta, scopeMergeFold_find_scope_key _ k hk,
      copyStringMap_find _ (getScopeAnnotations_keysNodup _)]
  · intro k v hk hfind
    have hnd := getSealedSecretAnnotations_keysNodup _ _ _ hp
    rw [hmeta]
    exact scopeMergeFold_find_preserved _ k v hk hnd hfind _

/-- Witness for C2: a record whose stored annotations carry a stale
namespace-wide marker, resealed with strict scope — the marker is gone,
the allow-listed "owner" annotation survives. -/
theorem scope_annotations_recomputed_witness :
    Smap.find c2Record.metadata.annotations
      "sealedsecrets.bitnami.com/namespace-wide" =
      Smap.find (getScopeAnnotations "strict")
        "sealedsecrets.bitnami.com/namespace-wide" ∧
    Smap.find c2Record.metadata.annotations "owner" = some "team-x" := by
  have h := scope_annotations_recomputed c2W c2Opts c2Record c2Pres rfl rfl
  exact ⟨h.1 _ rfl, h.2 "owner" "team-x" rfl rfl⟩

/-- C10 — preserved annotations never reach the template: the returned
record's spec.template.metadata.annotations are exactly the freshly resolved
scope annotations, for every collaborator outcome and every preserved set
(the overlay loop only touches the copy used for the top-level metadata). -/
theorem template_annotations_frame (c : Collaborators) (opts : CreateOpts)
    (ss : SealedSecret) (hss : CreateSealedSecret c opts = .ok ss) :
    ss.spec.template.metadata.annotations = getScopeAnnotations opts.scope := by
  obtain ⟨-, -, -, htpl⟩ := CreateSealedSecret_ok_elim c opts ss hss
  exact htpl

/-- Witness for C10: even with a preserved "owner" annotation overlaid on the
top-level metadata, the template's annotations are exactly the scope
annotations. -/
theorem template_annotations_frame_witness :
    c10Record.spec.template.metadata.annotations =
      getScopeAnnotations "namespace" :=
  template_annotations_frame c10W c10Opts c10Record rfl

lemma processBlockLine_snd (l : Line) :
    (processBlockLine l).2 = endsUnescapedTick l := by
  unfold processBlockLine hasEscSuffix cutSuffixTick endsUnescapedTick
  rcases hr : l.reverse with _ | ⟨c, _ | ⟨d, rest⟩⟩
  · simp
  · by_cases hc : c = tickChar <;> simp [hc]
  · by_cases hc : c = tickChar <;> by_cases hd : d = '\\' <;> simp [hc, hd]

lemma processBlockLine_of_ends_false (l : Line)
    (h : endsUnescapedTick l = false) :
    processBlockLine l = (replaceEscAll l, false) := by
  unfold endsUnescapedTick at h
  unfold processBlockLine hasEscSuffix cutSuffixTick
  rcases hr : l.reverse with _ | ⟨c, _ | ⟨d, rest⟩⟩
  · simp
  · rw [hr] at h
    simp only at h
    have hc : ¬(c = tickChar) := of_decide_eq_false h
    simp [hc]
  · rw [hr] at h
    simp only at h
    by_cases hc : c = tickChar
    · by_cases hd : d = '\\'
      · simp [hc, hd]
      · exfalso
        simp [hc, hd] at h
    · simp [hc]

lemma processBlockLine_of_ends_true (l : Line)
    (h : endsUnescapedTick l = true) :
    processBlockLine l = (replaceEscAll (cutSuffixTick l).1, true) := by
  unfold endsUnescapedTick at h
  unfold processBlockLine hasEscSuffix cutSuffixTick
  rcases hr : l.reverse with _ | ⟨c, _ | ⟨d, rest⟩⟩
  · rw [hr] at h; simp at h
  · rw [hr] at h
    simp only at h
    have hc : c = tickChar := of_decide_eq_true h
    simp [hc]
  · rw [hr] at h
    simp only [Bool.and_eq_true] at h
    have hc : c = tickChar := of_decide_eq_true h.1
    have hd : ¬(d = '\\') := by
      have hh := h.2
      simp only [Bool.not_eq_true'] at hh
      exact of_decide_eq_false hh
    simp [hc, hd]

lemma parseLoop_refSteps (ls : List Line) :
    ∀ (i : Nat) (mk mv : Line) (res : Smap),
      errOf (parseLoop ls i mk mv res) =
        refSteps true ls i (decide (0 < mk.length)) := by
  induction ls with
  | nil =>
    intro i mk mv res
    simp only [parseLoop, refSteps]
    by_cases h : mk.length = 0
    · rw [if_neg (by rw [h]; exact fun hh => hh rfl)]
      rw [if_neg (by rw [h]; simp)]
      rfl
    · rw [if_pos (fun hh => h hh)]
      rw [if_pos (by simpa using Nat.pos_of_ne_zero h)]
      rfl
  | cons line rest ih =>
    intro i mk mv res
    by_cases hmk : 0 < mk.length
    · simp only [parseLoop, refSteps, if_pos hmk, decide_eq_true hmk, if_true]
      cases hee : endsUnescapedTick line
      · rw [processBlockLine_of_ends_false line hee]
        simp [ih, decide_eq_true hmk]
      · rw [processBlockLine_of_ends_true line hee]
        simp [ih]
    · simp only [parseLoop, refSteps, if_neg hmk, decide_eq_false hmk,
        Bool.false_eq_true, if_false]
      cases hsp : splitEq line with
      | none => rfl
      | some kv =>
        obtain ⟨k, v⟩ := kv
        simp only
        rcases hcp : cutPrefixTick v with ⟨part, b⟩
        cases b
        · simp [ih]
        · simp only
          cases hee : endsUnescapedTick part
          · rw [processBlockLine_of_ends_false part hee]
            simp [ih, hee]
          · rw [processBlockLine_of_ends_true part hee]
            simp [ih, hee]

/-- C5, counterexample — a multi-line block opened by a line with an EMPTY
key (input "=`x\ny`", i.e. '=', backtick, x, newline, y, backtick): none of
the claim's three failure cases applies (the input is non-empty, line 1 sits
inside an open block which line 1 itself closes), yet the parser fails with
"Missing '=' at line: 1", because the code tracks the open block in
`multilineKey`, which is empty here. -/
theorem parse_raises_iff_cex :
    errOf (parseKeyValuePairs "=`x\ny`") = some (ParseErr.missingEq 1) ∧
    specFailsClaim "=`x\ny`" = none := by
  constructor <;> rfl

/-- C5 as amended — `parseKeyValuePairs` fails exactly on: (i) empty input,
(ii) a line without '=' that is not inside an open multi-line block, where a
block opened by a line whose key is empty does not count as open (its state
is dropped), and (iii) end of input with an open block; the error is the one
the claim names ((ii) carries the 0-based line index of the first such
line), and every other input parses without error. -/
theorem parse_raises_iff_amended (data : String) :
    errOf (parseKeyValuePairs data) = specFails data := by
  unfold parseKeyValuePairs specFails
  by_cases h : (splitLines data.data).length = 1 ∧
      ((splitLines data.data).headD []).length = 0
  · simp only [h, if_pos, and_self]
    rfl
  · simp only [h, if_neg, not_false_eq_true]
    rw [parseLoop_refSteps]
    rfl

lemma splitLines_no_nl (l : Line) (h : '\n' ∉ l) : splitLines l = [l] := by
  induction l with
  | nil => rfl
  | cons c rest ih =>
    simp only [List.mem_cons, not_or] at h
    have hc : ¬(c = '\n') := fun hh => h.1 hh.symm
    simp [splitLines, hc, ih h.2]

lemma splitLines_cons_nl (l t : Line) (h : '\n' ∉ l) :
    splitLines (l ++ '\n' :: t) = l :: splitLines t := by
  induction l with
  | nil => simp [splitLines]
  | cons c rest ih =>
    simp only [List.mem_cons, not_or] at h
    have hc : ¬(c = '\n') := fun hh => h.1 hh.symm
    simp only [List.cons_append, splitLines, if_neg hc, List.append_eq]
    rw [ih h.2]

lemma joinNL_cons (l : Line) (ls : List Line) (h : ls ≠ []) :
    joinNL (l :: ls) = l ++ '\n' :: joinNL ls := by
  cases ls with
  | nil => exact absurd rfl h
  | cons l2 rs => rfl

lemma splitLines_joinNL (ls : List Line) (hne : ls ≠ [])
    (h : ∀ l ∈ ls, '\n' ∉ l) : splitLines (joinNL ls) = ls := by
  induction ls with
  | nil => exact absurd rfl hne
  | cons l rest ih =>
    cases rest with
    | nil => exact splitLines_no_nl l (h l (List.mem_cons_self l []))
    | cons l2 rs =>
      rw [joinNL_cons l (l2 :: rs) (List.cons_ne_nil l2 rs),
        splitLines_cons_nl l _ (h l (List.mem_cons_self l (l2 :: rs))),
        ih (List.cons_ne_nil l2 rs)
          (fun x hx => h x (List.mem_cons_of_mem l hx))]

lemma splitEq_append (k v : Line) (hk : '=' ∉ k) :
    splitEq (k ++ '=' :: v) = some (k, v) := by
  induction k with
  | nil => simp [splitEq]
  | cons c rest ih =>
    simp only [List.mem_cons, not_or] at hk
    have hc : ¬(c = '=') := fun hh => hk.1 hh.symm
    simp [splitEq, hc, ih hk.2]

lemma parseLoop_block (vlast : Line) (hlast : endsUnescapedTick vlast = true) :
    ∀ (mid : List Line), (∀ m ∈ mid, endsUnescapedTick m = false) →
    ∀ (i : Nat) (mk mv : Line) (res : Smap), 0 < mk.length →
      parseLoop (mid ++ [vlast]) i mk mv res =
        .ok (res.insert (String.mk mk) (String.mk (mv ++ blockTail mid vlast))) := by
  intro mid
  induction mid with
  | nil =>
    intro _ i mk mv res hmk
    simp only [List.nil_append, parseLoop, if_pos hmk]
    rw [processBlockLine_of_ends_true vlast hlast]
    simp [parseLoop, blockTail]
  | cons m ms ih =>
    intro hm i mk mv res hmk
    have hm0 : endsUnescapedTick m = false := hm m (List.mem_cons_self m ms)
    simp only [List.cons_append, parseLoop, if_pos hmk]
    rw [processBlockLine_of_ends_false m hm0]
    simp only [Bool.false_eq_true, if_neg, not_false_eq_true, List.append_eq]
    rw [ih (fun x hx => hm x (List.mem_cons_of_mem m hx)) (i + 1) mk
      (mv ++ '\n' :: replaceEscAll m) res hmk]
    simp [blockTail, List.append_assoc]

/-- C6, counterexample — with an EMPTY key ("=`p\nq`"), the claim's rule says
the backtick opens a block, line 1 closes it, and the parse yields the
mapping with the empty key; the code instead drops the block state (the key
is its state flag) and fails at line 1. -/
theorem multiline_block_cex :
    parseKeyValuePairs "=`p\nq`" = .error (ParseErr.missingEq 1) ∧
    parseKeyValuePairs "=`p\nq`" ≠ .ok [("", "p\nq")] := by
  refine ⟨rfl, fun h => ?_⟩
  have h2 : (Except.error (ParseErr.missingEq 1) : Except ParseErr Smap)
      = .ok [("", "p\nq")] := h
  exact Except.noConfusion h2

/-- C6 as amended — multi-line parsing as the claim describes it, for every
block whose opening line has a NON-EMPTY key: a value starting with a
backtick opens the block, each later line is appended preceded by a newline
until a line ending in an unescaped backtick closes it (the closing backtick
stripped), and backslash+backtick renders as a literal backtick without
closing; the claim's two concrete examples hold as stated. -/
theorem multiline_block_parsing :
    (∀ (k v0 vlast : Line) (mid : List Line),
      k ≠ [] → '=' ∉ k → '\n' ∉ k → '\n' ∉ v0 → '\n' ∉ vlast →
      (∀ m ∈ mid, '\n' ∉ m) →
      endsUnescapedTick v0 = false →
      (∀ m ∈ mid, endsUnescapedTick m = false) →
      endsUnescapedTick vlast = true →
      parseKeyValuePairs
        (String.mk (joinNL ((k ++ '=' :: tickChar :: v0) :: mid ++ [vlast]))) =
        .ok [(String.mk k,
              String.mk (replaceEscAll v0 ++ blockTail mid vlast))]) ∧
    parseKeyValuePairs "a=`x\ny`" = .ok [("a", "x\ny")] ∧
    parseKeyValuePairs "a=`x\\`y`" = .ok [("a", "x`y")] := by
  refine ⟨?_, rfl, rfl⟩
  intro k v0 vlast mid hk hkeq hknl hv0nl hvlnl hmidnl hv0end hmidend hlast
  unfold parseKeyValuePairs
  have h0 : '\n' ∉ (k ++ '=' :: tickChar :: v0) := by
    simp only [List.mem_append, List.mem_cons, not_or]
    exact ⟨hknl, by decide, by decide, hv0nl⟩
  have hall : ∀ l ∈ (k ++ '=' :: tickChar :: v0) :: mid ++ [vlast],
      '\n' ∉ l := by
    intro l hl
    rcases List.mem_cons.mp hl with rfl | hl2
    · exact h0
    · rcases List.mem_append.mp hl2 with hm | hv
      · exact hmidnl l hm
      · rcases List.mem_singleton.mp hv with rfl
        exact hvlnl
  have hsplit : splitLines (String.mk
      (joinNL ((k ++ '=' :: tickChar :: v0) :: mid ++ [vlast]))).data =
      (k ++ '=' :: tickChar :: v0) :: mid ++ [vlast] :=
    splitLines_joinNL _ (List.cons_ne_nil _ _) hall
  simp only [hsplit]
  rw [if_neg (by
    intro hcontra
    have h1 := hcontra.1
    simp only [List.length_cons, List.length_append, List.length_singleton]
      at h1
    omega)]
  simp only [parseLoop, List.length_nil, Nat.lt_irrefl, if_neg,
    not_false_eq_true, Bool.false_eq_true]
  rw [splitEq_append k (tickChar :: v0) hkeq]
  have hcp : cutPrefixTick (tickChar :: v0) = (v0, true) := rfl
  have hpb := processBlockLine_of_ends_false v0 hv0end
  have hblk := parseLoop_block vlast hlast mid hmidend 1 k (replaceEscAll v0)
    [] (List.length_pos.mpr hk)
  simp [hcp, hpb, hblk, Smap.insert]

/-- Witness for C6 at the claim's first example, built through the general
statement: key "a", opening remainder "x", closing line "y`". -/
theorem multiline_block_parsing_witness :
    parseKeyValuePairs
      (String.mk (joinNL ((['a'] ++ '=' :: tickChar :: ['x']) :: [] ++
        [['y', tickChar]]))) =
      .ok [(String.mk ['a'],
            String.mk (replaceEscAll ['x'] ++ blockTail [] ['y', tickChar]))] :=
  multiline_block_parsing.1 ['a'] ['x'] ['y', tickChar] []
    (by decide) (by decide) (by decide) (by decide) (by decide)
    (by intro m hm; exact absurd hm (List.not_mem_nil m))
    (by decide)
    (by intro m hm; exact absurd hm (List.not_mem_nil m))
    (by decide)

/-- C9, counterexample — for the line "k=`v=w" (which contains '='), the
claim says the mapping's value is everything after the first '=', i.e.
"`v=w"; instead the leading backtick of the value opens a multi-line block
and the parse fails as unterminated. -/
theorem separator_split_cex :
    parseKeyValuePairs "k=`v=w" = .error ParseErr.unterminated ∧
    parseKeyValuePairs "k=`v=w" ≠ .ok [("k", "`v=w")] := by
  refine ⟨rfl, fun h => ?_⟩
  have h2 : (Except.error ParseErr.unterminated : Except ParseErr Smap)
      = .ok [("k", "`v=w")] := h
  exact Except.noConfusion h2

/-- C9 as amended — splitting at the first '=': for a line whose text after
the first '=' does not begin with a backtick, the mapping gets exactly the
text before the first '=' as key and everything after it as value; the value
may contain further '=' characters, the key may be empty, and neither side
is trimmed. -/
theorem separator_split_amended (k v : Line)
    (hke : '=' ∉ k) (hknl : '\n' ∉ k) (hvnl : '\n' ∉ v)
    (hv : (cutPrefixTick v).2 = false) :
    parseKeyValuePairs (String.mk (k ++ '=' :: v)) =
      .ok [(String.mk k, String.mk v)] := by
  unfold parseKeyValuePairs
  have h0 : '\n' ∉ (k ++ '=' :: v) := by
    simp only [List.mem_append, List.mem_cons, not_or]
    exact ⟨hknl, by decide, hvnl⟩
  have hsplit : splitLines (String.mk (k ++ '=' :: v)).data = [k ++ '=' :: v] :=
    splitLines_no_nl _ h0
  simp only [hsplit]
  rw [if_neg (by
    intro hcontra
    have h1 := hcontra.2
    simp only [List.headD_cons, List.length_append, List.length_cons] at h1
    omega)]
  simp only [parseLoop, List.length_nil, Nat.lt_irrefl, if_neg,
    not_false_eq_true, Bool.false_eq_true]
  rw [splitEq_append k v hke]
  rcases hcp : cutPrefixTick v with ⟨part, b⟩
  rw [hcp] at hv
  simp only at hv
  subst hv
  simp [parseLoop, Smap.insert, hcp]

/-- Witness for C9: empty key, value containing '=' and an untrimmed
trailing space — input "=x=y " parses to the single pair ("", "x=y "). -/
theorem separator_split_amended_witness :
    parseKeyValuePairs (String.mk ([] ++ '=' :: ['x', '=', 'y', ' '])) =
      .ok [(String.mk [], String.mk ['x', '=', 'y', ' '])] :=
  separator_split_amended [] ['x', '=', 'y', ' ']
    (by decide) (by decide) (by decide) (by decide)
